import Mathlib

/-!
Verification of the synthetic UPI transaction generator
(`generate_synthetic_transactions`) and the sequential fraud-pattern
injector (`add_sequential_patterns`) from `upi_test/Untitled-1.py`.

Modelling conventions (shallow embedding):

* Machine floats are modelled as `ℚ`.  Timestamps are seconds (a `datetime`
  is its value in seconds; `(t2 - t1).total_seconds()` is plain subtraction).
* The two seeded pseudo-random sources (`random` and `np.random`, both
  seeded with `RANDOM_STATE` from the absent `config.py`) are modelled as an
  abstract structure of draw streams, `RandStream`: a fixed seed determines
  fixed streams, so "two runs with the same seed" share one `RandStream`.
  Each call-site draw is indexed by the record number.
* `random.choice(pool)` is modelled as the drawn natural number taken
  modulo the pool size; `np.random.uniform(a, b)` as `a + (b - a) * u`
  with a unit draw `u`; `np.random.normal(μ, σ)` as `μ + σ * z` with an
  unconstrained draw `z`; `np.random.exponential(9000)` as a draw that the
  library guarantees nonnegative.
* String identifiers built by injective formatting (`TXN_{i:08d}`,
  `USER_{i:04d}`, `RECIP_{i:04d}`) are kept as the underlying numbers.
* `datetime.now()` is an explicit parameter `now`; Python's salted string
  `hash` is an explicit parameter `pyHash : ℕ → ℤ` (its argument the user
  number), since both vary between independent runs of the script.
* `df.loc[i, c] = v` on the positionally indexed frame is a positional
  list update; `df['user_id'].unique()` preserves first-encounter order;
  `df[mask].sample(frac=0.1, random_state=RANDOM_STATE)` is an abstract
  function `sample : List ℕ → List ℕ` from the masked row positions to the
  chosen row positions, constrained where a claim needs pandas' documented
  contract (a subset, of size `round(0.1 * len)`).
-/

/-- Fraud label of a transaction record: the four archetypes plus the
    legitimate marker. -/
inductive FraudType where
  | micropay_scam
  | velocity_attack
  | new_recipient
  | fake_refund
  | legitimate
deriving DecidableEq, Inhabited

/-- One transaction record.  `transaction_id` keeps the number `i` from
    `TXN_{i:08d}`; `user_id` and `recipient_id` keep the numbers from
    `USER_{i:04d}` / `RECIP_{i:04d}`; `transaction_type` is the index into
    `['P2P', 'P2M', 'Recharge', 'Bill Payment']` and `location` the index
    into the six-city list; `device_id` keeps the number from
    `DEV_{hash(user_id) % 100:03d}`. -/
structure Txn where
  transaction_id : ℕ
  user_id : ℕ
  timestamp : ℚ
  amount : ℚ
  recipient_id : ℕ
  transaction_type : ℕ
  device_id : ℤ
  location : ℕ
  is_fraud : Bool
  fraud_type : FraudType
deriving DecidableEq, Inhabited

/-- Abstract seeded draw streams, one per call-site of the two PRNGs,
    indexed by the record number `i`.  A fixed `RANDOM_STATE` seed fixes
    every stream. -/
structure RandStream where
  /-- draw for `random.choice(user_ids)` -/
  userDraw : ℕ → ℕ
  /-- draw for `random.random()` in the timestamp formula -/
  tDraw : ℕ → ℚ
  /-- draw for `random.random() < FRAUD_RATE` -/
  fDraw : ℕ → ℚ
  /-- output of `np.random.exponential(9000)` -/
  expDraw : ℕ → ℚ
  /-- draw for `np.random.choice` over the four archetypes -/
  archDraw : ℕ → ℕ
  /-- draw for `np.random.choice([1, 2, 5, 10])` -/
  mpDraw : ℕ → ℕ
  /-- unit draw for `np.random.uniform(a, b)` -/
  uniDraw : ℕ → ℚ
  /-- standard draw for `np.random.normal` -/
  normDraw : ℕ → ℚ
  /-- draw for `random.choice` over recipients -/
  recipDraw : ℕ → ℕ
  /-- draw for `random.random() < 0.8` (frequent contacts) -/
  freqDraw : ℕ → ℚ
  /-- draw for `random.choice` over transaction types -/
  typeDraw : ℕ → ℕ
  /-- draw for `random.choice` over locations -/
  locDraw : ℕ → ℕ

/-- Round half to even, as Python's `round` does on an exact value. -/
def roundHalfEven (q : ℚ) : ℤ :=
  if q - ⌊q⌋ < 1/2 then ⌊q⌋
  else if 1/2 < q - ⌊q⌋ then ⌊q⌋ + 1
  else if 2 ∣ ⌊q⌋ then ⌊q⌋ else ⌊q⌋ + 1

/-- Python's `round(amount, 2)`. -/
def round2 (q : ℚ) : ℚ := (roundHalfEven (q * 100) : ℚ) / 100

/-- The archetype chosen by `np.random.choice` over the four-element list,
    from the drawn index. -/
def archetypeOf (k : ℕ) : FraudType :=
  match k % 4 with
  | 0 => FraudType.micropay_scam
  | 1 => FraudType.velocity_attack
  | 2 => FraudType.new_recipient
  | _ => FraudType.fake_refund

/-- Fraud-branch amount, per archetype (lines 48-55 of the source).
    `np.random.uniform(a, b)` is `a + (b - a) * u`.  The trailing branch is
    `fake_refund`, the only archetype left after the three `elif` tests. -/
def fraudAmount (R : RandStream) (i : ℕ) (ft : FraudType) (userAvg : ℚ) : ℚ :=
  if ft = FraudType.micropay_scam then
    [(1 : ℚ), 2, 5, 10].getD (R.mpDraw i % 4) 1
  else if ft = FraudType.velocity_attack then
    5000 + (50000 - 5000) * R.uniDraw i
  else if ft = FraudType.new_recipient then
    userAvg * (3 + (10 - 3) * R.uniDraw i)
  else
    1000 + (20000 - 1000) * R.uniDraw i

/-- One generated record (loop body, lines 28-82 of the source).
    `rate` is `FRAUD_RATE`, `now` is `datetime.now()` in seconds, `pyHash`
    is Python's salted string hash applied to the user number.
    90 days is 7776000 seconds. -/
def genRecord (R : RandStream) (rate now : ℚ) (pyHash : ℕ → ℤ) (i : ℕ) : Txn :=
  let user : ℕ := R.userDraw i % 1000 + 1
  let timestamp : ℚ := (now - 7776000) + 7776000 * R.tDraw i
  let isF : Bool := decide (R.fDraw i < rate)
  let userAvg : ℚ := 1000 + R.expDraw i
  let ft : FraudType :=
    if isF = true then archetypeOf (R.archDraw i) else FraudType.legitimate
  let amountRaw : ℚ :=
    if isF = true then fraudAmount R i ft userAvg
    else min (max 10 (userAvg + userAvg / 3 * R.normDraw i)) 100000
  let recip : ℕ :=
    if isF = true then R.recipDraw i % 500 + 1
    else if R.freqDraw i < 4/5 then R.recipDraw i % 50 + 1
    else R.recipDraw i % 500 + 1
  { transaction_id := i
    user_id := user
    timestamp := timestamp
    amount := round2 amountRaw
    recipient_id := recip
    transaction_type := R.typeDraw i % 4
    device_id := pyHash user % 100
    location := R.locDraw i % 6
    is_fraud := isF
    fraud_type := ft }

/-- The transaction sampler: `n_samples` independent records in generation
    order (lines 13-85 of the source). -/
def generate_synthetic_transactions (R : RandStream) (rate now : ℚ)
    (pyHash : ℕ → ℤ) (n : ℕ) : List Txn :=
  (List.range n).map (genRecord R rate now pyHash)

/-- Relabel the record at position `k` as fraud of type `ft`
    (the pair of `df.loc[k, 'is_fraud'] = 1; df.loc[k, 'fraud_type'] = ft`). -/
def setLabel (ft : FraudType) (t : Txn) : Txn :=
  { t with is_fraud := true, fraud_type := ft }

/-- Positional update applying `setLabel ft` at position `k` (no-op out of
    range). -/
def relabel : List Txn → ℕ → FraudType → List Txn
  | [], _, _ => []
  | t :: ts, 0, ft => setLabel ft t :: ts
  | t :: ts, Nat.succ k, ft => t :: relabel ts k ft

/-- Positions of a column's entries equal to `u`, ascending. -/
def idxWhere (l : List ℕ) (u : ℕ) : List ℕ :=
  (List.range l.length).filter (fun k => l.get? k == some u)

/-- Row positions of user `u`: `df[df['user_id'] == user].index`. -/
def userIndices (d : List Txn) (u : ℕ) : List ℕ :=
  idxWhere (d.map Txn.user_id) u

/-- Distinct values in first-encounter order: `Series.unique()`. -/
def firstOccurs : List ℕ → List ℕ
  | [] => []
  | u :: l => u :: (firstOccurs l).filter (fun v => v ≠ u)

/-- The injector's user pool: `df['user_id'].unique()[:100]`. -/
def trackedUsers (d : List Txn) : List ℕ :=
  (firstOccurs (d.map Txn.user_id)).take 100

/-- The micropay test of lines 104-106: first amount at most 10, second
    amount above 10000, and the signed timestamp difference at most 300
    seconds.  Out-of-range positions cannot arise from the loop and fail
    the test. -/
def micropayCondB (d : List Txn) (k1 k2 : ℕ) : Bool :=
  match d.get? k1, d.get? k2 with
  | some t1, some t2 =>
      decide (t1.amount ≤ 10) && decide (10000 < t2.amount) &&
        decide (t2.timestamp - t1.timestamp ≤ 300)
  | _, _ => false

/-- One iteration of the micropay loop body (lines 103-108). -/
def micropayStep (d : List Txn) (k1 k2 : ℕ) : List Txn :=
  if micropayCondB d k1 k2 then relabel d k2 FraudType.micropay_scam else d

/-- The per-user body of the injector loop (lines 91-108): velocity
    relabelling of the seeded sample, then the micropay scan over
    `range(1, len(user_indices) - 1)`. -/
def processUser (sample : List ℕ → List ℕ) (d : List Txn) (u : ℕ) : List Txn :=
  let idxs := userIndices d u
  if 10 < idxs.length then
    let d1 := (sample idxs).foldl (fun d2 k => relabel d2 k FraudType.velocity_attack) d
    if 2 < idxs.length then
      (List.range' 1 (idxs.length - 2)).foldl
        (fun d2 i => micropayStep d2 (idxs.getD i 0) (idxs.getD (i + 1) 0)) d1
    else d1
  else d

/-- The sequential pattern injector (lines 87-110 of the source). -/
def add_sequential_patterns (sample : List ℕ → List ℕ) (df : List Txn) : List Txn :=
  (trackedUsers df).foldl (processUser sample) df

/-- Apply a list of blind label writes (position, fraud type) left to
    right. -/
def applyWrites (ws : List (ℕ × FraudType)) (d : List Txn) : List Txn :=
  ws.foldl (fun d2 w => relabel d2 w.1 w.2) d

/-- The label written last at position `k` by a write list, if any. -/
def lastWrite (ws : List (ℕ × FraudType)) (k : ℕ) : Option FraudType :=
  ((ws.filter (fun w => w.1 == k)).getLast?).map Prod.snd

/-- Static form of the velocity writes of a user (lines 95-97). -/
def velocityWrites (sample : List ℕ → List ℕ) (df : List Txn) (u : ℕ) :
    List (ℕ × FraudType) :=
  (sample (userIndices df u)).map (fun k => (k, FraudType.velocity_attack))

/-- Static form of the micropay writes of a user (lines 100-108): the
    scanned positions whose pair passes the test, each mapped to a
    micropay write on the second element of the pair. -/
def micropayWrites (df : List Txn) (u : ℕ) : List (ℕ × FraudType) :=
  let idxs := userIndices df u
  ((List.range' 1 (idxs.length - 2)).filter
      (fun i => micropayCondB df (idxs.getD i 0) (idxs.getD (i + 1) 0))).map
    (fun i => (idxs.getD (i + 1) 0, FraudType.micropay_scam))

/-- Static form of all writes the injector performs for one user. -/
def userWrites (sample : List ℕ → List ℕ) (df : List Txn) (u : ℕ) :
    List (ℕ × FraudType) :=
  let idxs := userIndices df u
  if 10 < idxs.length then
    velocityWrites sample df u ++
      (if 2 < idxs.length then micropayWrites df u else [])
  else []

/-- Static form of all writes the injector performs. -/
def theWrites (sample : List ℕ → List ℕ) (df : List Txn) : List (ℕ × FraudType) :=
  (trackedUsers df).flatMap (userWrites sample df)

/-- Pandas' row count for `sample(frac=0.1)`: `round(0.1 * n)` with
    banker's rounding, modelled exactly on the fraction. -/
def pandasSampleSize (n : ℕ) : ℕ :=
  (roundHalfEven ((n : ℚ) / 10)).toNat

/-- A concrete sampler satisfying pandas' documented contract (a subset of
    the given positions, of the rounded fractional size), used to
    instantiate hypotheses on concrete inputs. -/
def sampleW (l : List ℕ) : List ℕ := l.take (pandasSampleSize l.length)

/-- All fields of a record other than the two labels, for frame
    statements. -/
def agreeFrame (t t' : Txn) : Prop :=
  t'.transaction_id = t.transaction_id ∧ t'.user_id = t.user_id ∧
  t'.timestamp = t.timestamp ∧ t'.amount = t.amount ∧
  t'.recipient_id = t.recipient_id ∧ t'.transaction_type = t.transaction_type ∧
  t'.device_id = t.device_id ∧ t'.location = t.location

/-- Result of optionally overwriting the label of an optional record. -/
def appliedAt (v : Option FraudType) (o : Option Txn) : Option Txn :=
  match v with
  | none => o
  | some ft => o.map (setLabel ft)

/-- `d'` agrees with `d` except that some positions carry an overwritten
    label: exactly the reachable states of the injector's mutation. -/
def FramePres (d d' : List Txn) : Prop :=
  d'.length = d.length ∧
    ∀ j : ℕ, ∃ v : Option FraudType, d'.get? j = appliedAt v (d.get? j)

lemma setLabel_setLabel (v w : FraudType) (t : Txn) :
    setLabel v (setLabel w t) = setLabel v t := rfl

lemma relabel_length (d : List Txn) (k : ℕ) (ft : FraudType) :
    (relabel d k ft).length = d.length := by
  induction d generalizing k with
  | nil => rfl
  | cons t ts ih =>
    cases k with
    | zero => rfl
    | succ k => simpa [relabel] using ih k

lemma relabel_get? (d : List Txn) (k : ℕ) (ft : FraudType) (j : ℕ) :
    (relabel d k ft).get? j =
      if j = k then (d.get? k).map (setLabel ft) else d.get? j := by
  induction d generalizing k j with
  | nil => simp [relabel]
  | cons t ts ih =>
    cases k with
    | zero =>
      cases j with
      | zero => simp [relabel]
      | succ j => simp [relabel]
    | succ k =>
      cases j with
      | zero => simp [relabel]
      | succ j => simpa [relabel, Nat.succ_eq_add_one] using ih k j

lemma appliedAt_none (o : Option Txn) : appliedAt none o = o := rfl

lemma appliedAt_some (ft : FraudType) (o : Option Txn) :
    appliedAt (some ft) o = o.map (setLabel ft) := rfl

lemma appliedAt_appliedAt (v2 v1 : Option FraudType) (o : Option Txn) :
    appliedAt v2 (appliedAt v1 o) = appliedAt (v2.or v1) o := by
  cases v2 <;> cases v1 <;> cases o <;> simp [appliedAt, setLabel_setLabel]

lemma applyWrites_cons (w : ℕ × FraudType) (ws : List (ℕ × FraudType))
    (d : List Txn) :
    applyWrites (w :: ws) d = applyWrites ws (relabel d w.1 w.2) := rfl

lemma applyWrites_append (ws1 ws2 : List (ℕ × FraudType)) (d : List Txn) :
    applyWrites (ws1 ++ ws2) d = applyWrites ws2 (applyWrites ws1 d) :=
  List.foldl_append _ _ _ _

lemma lastWrite_cons (w : ℕ × FraudType) (ws : List (ℕ × FraudType)) (k : ℕ) :
    lastWrite (w :: ws) k =
      (lastWrite ws k).or (if w.1 = k then some w.2 else none) := by
  unfold lastWrite
  rw [List.filter_cons]
  by_cases h : w.1 = k
  · rw [if_pos (by simpa [beq_iff_eq] using h), if_pos h]
    rw [show w :: List.filter (fun x => x.1 == k) ws =
        [w] ++ List.filter (fun x => x.1 == k) ws from rfl]
    rw [List.getLast?_append]
    cases hl : (List.filter (fun x => x.1 == k) ws).getLast? <;>
      simp [Option.or, hl]
  · rw [if_neg (by simpa [beq_iff_eq] using h), if_neg h, Option.or_none]

lemma applyWrites_get? (ws : List (ℕ × FraudType)) (d : List Txn) (j : ℕ) :
    (applyWrites ws d).get? j = appliedAt (lastWrite ws j) (d.get? j) := by
  induction ws generalizing d with
  | nil => rfl
  | cons w ws ih =>
    rw [applyWrites_cons, ih, lastWrite_cons, relabel_get?]
    by_cases hw : w.1 = j
    · rw [hw, if_pos rfl, if_pos rfl]
      cases hl : lastWrite ws j with
      | none => rw [Option.none_or, appliedAt_none, appliedAt_some]
      | some v =>
        rw [show (some v).or (some w.2) = some v from rfl, appliedAt_some,
          appliedAt_some]
        cases d.get? j <;> simp [setLabel_setLabel, Function.comp]
    · rw [if_neg (fun h => hw h.symm), if_neg hw, Option.or_none]

lemma applyWrites_length (ws : List (ℕ × FraudType)) (d : List Txn) :
    (applyWrites ws d).length = d.length := by
  induction ws generalizing d with
  | nil => rfl
  | cons w ws ih => rw [applyWrites_cons, ih, relabel_length]

lemma framePres_refl (d : List Txn) : FramePres d d :=
  ⟨rfl, fun _ => ⟨none, rfl⟩⟩

lemma framePres_trans {d1 d2 d3 : List Txn}
    (h12 : FramePres d1 d2) (h23 : FramePres d2 d3) : FramePres d1 d3 := by
  refine ⟨h23.1.trans h12.1, fun j => ?_⟩
  obtain ⟨v1, hv1⟩ := h12.2 j
  obtain ⟨v2, hv2⟩ := h23.2 j
  exact ⟨v2.or v1, by rw [hv2, hv1, appliedAt_appliedAt]⟩

lemma framePres_applyWrites (ws : List (ℕ × FraudType)) (d : List Txn) :
    FramePres d (applyWrites ws d) :=
  ⟨applyWrites_length ws d, fun j => ⟨lastWrite ws j, applyWrites_get? ws d j⟩⟩

lemma framePres_map_user_id {d d' : List Txn} (h : FramePres d d') :
    d'.map Txn.user_id = d.map Txn.user_id := by
  apply List.ext_get?
  intro j
  rw [List.get?_map, List.get?_map]
  obtain ⟨v, hv⟩ := h.2 j
  rw [hv]
  cases v <;> cases d.get? j <;> simp [appliedAt, setLabel]

lemma userIndices_congr {d d' : List Txn} (h : FramePres d d') (u : ℕ) :
    userIndices d' u = userIndices d u := by
  unfold userIndices
  rw [framePres_map_user_id h]

lemma trackedUsers_congr {d d' : List Txn} (h : FramePres d d') :
    trackedUsers d' = trackedUsers d := by
  unfold trackedUsers
  rw [framePres_map_user_id h]

lemma micropayCondB_congr {d d' : List Txn} (h : FramePres d d') (k1 k2 : ℕ) :
    micropayCondB d' k1 k2 = micropayCondB d k1 k2 := by
  obtain ⟨v1, hv1⟩ := h.2 k1
  obtain ⟨v2, hv2⟩ := h.2 k2
  unfold micropayCondB
  rw [hv1, hv2]
  cases v1 <;> cases v2 <;> cases d.get? k1 <;> cases d.get? k2 <;>
    simp [appliedAt, setLabel]

lemma framePres_relabel (d : List Txn) (k : ℕ) (ft : FraudType) :
    FramePres d (relabel d k ft) := by
  refine ⟨relabel_length d k ft, fun j => ?_⟩
  by_cases h : j = k
  · exact ⟨some ft, by rw [relabel_get?, if_pos h, appliedAt_some, h]⟩
  · exact ⟨none, by rw [relabel_get?, if_neg h, appliedAt_none]⟩

lemma velocity_fold (ks : List ℕ) (d : List Txn) :
    ks.foldl (fun d2 k => relabel d2 k FraudType.velocity_attack) d =
      applyWrites (ks.map (fun k => (k, FraudType.velocity_attack))) d := by
  rw [applyWrites, List.foldl_map]

lemma micropay_fold (df : List Txn) (idxs : List ℕ) (is : List ℕ) :
    ∀ (d : List Txn), FramePres df d →
      is.foldl (fun d2 i => micropayStep d2 (idxs.getD i 0) (idxs.getD (i + 1) 0)) d =
        applyWrites
          ((is.filter
              (fun i => micropayCondB df (idxs.getD i 0) (idxs.getD (i + 1) 0))).map
            (fun i => (idxs.getD (i + 1) 0, FraudType.micropay_scam))) d := by
  induction is with
  | nil => intro d _; rfl
  | cons i is ih =>
    intro d hd
    rw [List.foldl_cons, List.filter_cons]
    by_cases hc : micropayCondB df (idxs.getD i 0) (idxs.getD (i + 1) 0) = true
    · have hc' : micropayCondB d (idxs.getD i 0) (idxs.getD (i + 1) 0) = true := by
        rw [micropayCondB_congr hd]; exact hc
      rw [if_pos hc, List.map_cons, applyWrites_cons]
      rw [show micropayStep d (idxs.getD i 0) (idxs.getD (i + 1) 0) =
          relabel d (idxs.getD (i + 1) 0) FraudType.micropay_scam from by
        rw [micropayStep, if_pos hc']]
      exact ih _ (framePres_trans hd (framePres_relabel _ _ _))
    · have hc' : ¬ micropayCondB d (idxs.getD i 0) (idxs.getD (i + 1) 0) = true := by
        rw [micropayCondB_congr hd]; exact hc
      rw [if_neg hc]
      rw [show micropayStep d (idxs.getD i 0) (idxs.getD (i + 1) 0) = d from by
        rw [micropayStep, if_neg hc']]
      exact ih d hd

lemma processUser_eq (sample : List ℕ → List ℕ) (df : List Txn) (u : ℕ)
    (d : List Txn) (hd : FramePres df d) :
    processUser sample d u = applyWrites (userWrites sample df u) d := by
  unfold processUser userWrites
  rw [userIndices_congr hd]
  by_cases h10 : 10 < (userIndices df u).length
  · rw [if_pos h10, if_pos h10, velocity_fold]
    have hd1 : FramePres df
        (applyWrites ((sample (userIndices df u)).map
          (fun k => (k, FraudType.velocity_attack))) d) :=
      framePres_trans hd (framePres_applyWrites _ _)
    by_cases h2 : 2 < (userIndices df u).length
    · rw [if_pos h2, if_pos h2, micropay_fold df (userIndices df u) _ _ hd1,
        ← applyWrites_append]
      rfl
    · rw [if_neg h2, if_neg h2, List.append_nil]
      rfl
  · rw [if_neg h10, if_neg h10]
    rfl

lemma foldl_processUser_eq (sample : List ℕ → List ℕ) (df : List Txn)
    (us : List ℕ) :
    ∀ (d : List Txn), FramePres df d →
      us.foldl (processUser sample) d =
        applyWrites (us.flatMap (userWrites sample df)) d := by
  induction us with
  | nil => intro d _; rfl
  | cons u us ih =>
    intro d hd
    rw [List.foldl_cons, List.flatMap_cons, applyWrites_append,
      processUser_eq sample df u d hd]
    exact ih _ (framePres_trans hd (framePres_applyWrites _ _))

/-- The injector equals the application of its statically computed write
    list. -/
lemma addSeq_eq (sample : List ℕ → List ℕ) (df : List Txn) :
    add_sequential_patterns sample df = applyWrites (theWrites sample df) df :=
  foldl_processUser_eq sample df (trackedUsers df) df (framePres_refl df)

lemma framePres_addSeq (sample : List ℕ → List ℕ) (df : List Txn) :
    FramePres df (add_sequential_patterns sample df) := by
  rw [addSeq_eq]
  exact framePres_applyWrites _ _

lemma flatMap_congr {α β : Type} (l : List α) {f g : α → List β}
    (h : ∀ a ∈ l, f a = g a) : l.flatMap f = l.flatMap g := by
  induction l with
  | nil => rfl
  | cons a l ih =>
    rw [List.flatMap_cons, List.flatMap_cons, h a (List.mem_cons_self a l),
      ih (fun b hb => h b (List.mem_cons_of_mem a hb))]

lemma velocityWrites_congr (sample : List ℕ → List ℕ) {df df' : List Txn}
    (h : FramePres df df') (u : ℕ) :
    velocityWrites sample df' u = velocityWrites sample df u := by
  unfold velocityWrites
  rw [userIndices_congr h]

lemma micropayWrites_congr {df df' : List Txn} (h : FramePres df df') (u : ℕ) :
    micropayWrites df' u = micropayWrites df u := by
  simp only [micropayWrites]
  rw [userIndices_congr h]
  congr 1
  apply List.filter_congr
  intro i _
  rw [micropayCondB_congr h]

lemma userWrites_congr (sample : List ℕ → List ℕ) {df df' : List Txn}
    (h : FramePres df df') (u : ℕ) :
    userWrites sample df' u = userWrites sample df u := by
  simp only [userWrites]
  rw [userIndices_congr h, velocityWrites_congr sample h u,
    micropayWrites_congr h u]

lemma theWrites_congr (sample : List ℕ → List ℕ) {df df' : List Txn}
    (h : FramePres df df') :
    theWrites sample df' = theWrites sample df := by
  unfold theWrites
  rw [trackedUsers_congr h]
  exact flatMap_congr _ (fun u _ => userWrites_congr sample h u)

lemma applyWrites_idem (ws : List (ℕ × FraudType)) (d : List Txn) :
    applyWrites ws (applyWrites ws d) = applyWrites ws d := by
  apply List.ext_get?
  intro j
  rw [applyWrites_get?, applyWrites_get?, appliedAt_appliedAt, Option.or_self]

lemma mem_idxWhere {l : List ℕ} {u k : ℕ} :
    k ∈ idxWhere l u ↔ l.get? k = some u := by
  unfold idxWhere
  rw [List.mem_filter, List.mem_range, beq_iff_eq]
  constructor
  · rintro ⟨_, h⟩; exact h
  · intro h
    refine ⟨?_, h⟩
    obtain ⟨hlt, _⟩ := List.get?_eq_some.1 h
    exact hlt

lemma mem_userIndices {d : List Txn} {u k : ℕ} :
    k ∈ userIndices d u ↔ ∃ t, d.get? k = some t ∧ t.user_id = u := by
  rw [userIndices, mem_idxWhere, List.get?_map]
  cases d.get? k <;> simp

lemma getD_mem {α : Type} {l : List α} {n : ℕ} (h : n < l.length) (a : α) :
    l.getD n a ∈ l := by
  rw [List.getD_eq_get?]
  cases hx : l.get? n with
  | none =>
    rw [List.get?_eq_none] at hx
    omega
  | some x => simpa using List.get?_mem hx

lemma micropayWrites_mem {df : List Txn} {u : ℕ} {w : ℕ × FraudType}
    (hw : w ∈ micropayWrites df u) :
    w.1 ∈ userIndices df u ∧ w.2 = FraudType.micropay_scam := by
  simp only [micropayWrites] at hw
  obtain ⟨i, hi, rfl⟩ := List.mem_map.1 hw
  obtain ⟨hir, -⟩ := List.mem_filter.1 hi
  obtain ⟨hi1, hi2⟩ := List.mem_range'_1.1 hir
  refine ⟨getD_mem ?_ 0, rfl⟩
  omega

lemma velocityWrites_mem {sample : List ℕ → List ℕ} {df : List Txn} {u : ℕ}
    {w : ℕ × FraudType} (Hsub : ∀ l, sample l ⊆ l)
    (hw : w ∈ velocityWrites sample df u) :
    w.1 ∈ userIndices df u ∧ w.2 = FraudType.velocity_attack := by
  simp only [velocityWrites] at hw
  obtain ⟨k, hk, rfl⟩ := List.mem_map.1 hw
  exact ⟨Hsub _ hk, rfl⟩

lemma userWrites_mem {sample : List ℕ → List ℕ} {df : List Txn} {u : ℕ}
    {w : ℕ × FraudType} (Hsub : ∀ l, sample l ⊆ l)
    (hw : w ∈ userWrites sample df u) :
    w.1 ∈ userIndices df u ∧ 10 < (userIndices df u).length := by
  simp only [userWrites] at hw
  by_cases h10 : 10 < (userIndices df u).length
  · rw [if_pos h10] at hw
    rcases List.mem_append.1 hw with hv | hm
    · exact ⟨(velocityWrites_mem Hsub hv).1, h10⟩
    · by_cases h2 : 2 < (userIndices df u).length
      · rw [if_pos h2] at hm
        exact ⟨(micropayWrites_mem hm).1, h10⟩
      · rw [if_neg h2] at hm
        cases hm
  · rw [if_neg h10] at hw
    cases hw

lemma userWrites_snd {sample : List ℕ → List ℕ} {df : List Txn} {u : ℕ}
    {w : ℕ × FraudType} (hw : w ∈ userWrites sample df u) :
    w.2 = FraudType.velocity_attack ∨ w.2 = FraudType.micropay_scam := by
  simp only [userWrites] at hw
  by_cases h10 : 10 < (userIndices df u).length
  · rw [if_pos h10] at hw
    rcases List.mem_append.1 hw with hv | hm
    · simp only [velocityWrites] at hv
      obtain ⟨k, _, rfl⟩ := List.mem_map.1 hv
      exact Or.inl rfl
    · by_cases h2 : 2 < (userIndices df u).length
      · rw [if_pos h2] at hm
        exact Or.inr (micropayWrites_mem hm).2
      · rw [if_neg h2] at hm
        cases hm
  · rw [if_neg h10] at hw
    cases hw

lemma firstOccurs_nodup (l : List ℕ) : (firstOccurs l).Nodup := by
  induction l with
  | nil => exact List.nodup_nil
  | cons u l ih =>
    rw [firstOccurs, List.nodup_cons]
    constructor
    · intro hmem
      obtain ⟨-, hne⟩ := List.mem_filter.1 hmem
      simp at hne
    · exact List.Nodup.filter _ ih

lemma trackedUsers_nodup (d : List Txn) : (trackedUsers d).Nodup :=
  List.Nodup.sublist (List.take_sublist _ _) (firstOccurs_nodup _)

lemma filter_flatMap_single {us : List ℕ} {f : ℕ → List (ℕ × FraudType)}
    {p : ℕ × FraudType → Bool} {u : ℕ} (hu : u ∈ us) (hnd : us.Nodup)
    (hothers : ∀ v ∈ us, v ≠ u → (f v).filter p = []) :
    (us.flatMap f).filter p = (f u).filter p := by
  induction us with
  | nil => cases hu
  | cons v us ih =>
    rw [List.flatMap_cons, List.filter_append]
    rw [List.nodup_cons] at hnd
    rcases List.mem_cons.1 hu with rfl | hu'
    · have h2 : (us.flatMap f).filter p = [] := by
        rw [List.filter_eq_nil_iff]
        intro a ha
        obtain ⟨w, hw, haw⟩ := List.mem_flatMap.1 ha
        have hne : w ≠ u := fun h => hnd.1 (h ▸ hw)
        have := hothers w (List.mem_cons_of_mem _ hw) hne
        exact (List.filter_eq_nil_iff.1 this) a haw
      rw [h2, List.append_nil]
    · have hne : v ≠ u := fun h => hnd.1 (h ▸ hu')
      rw [hothers v (List.mem_cons_self v us) hne, List.nil_append]
      exact ih hu' hnd.2 (fun w hw hwne => hothers w (List.mem_cons_of_mem _ hw) hwne)

lemma filter_theWrites_eq {sample : List ℕ → List ℕ} {df : List Txn}
    {u k : ℕ} {t0 : Txn} (Hsub : ∀ l, sample l ⊆ l)
    (hk : df.get? k = some t0) (hku : t0.user_id = u)
    (hu : u ∈ trackedUsers df) :
    (theWrites sample df).filter (fun w => w.1 == k) =
      (userWrites sample df u).filter (fun w => w.1 == k) := by
  unfold theWrites
  apply filter_flatMap_single hu (trackedUsers_nodup df)
  intro v _ hvu
  rw [List.filter_eq_nil_iff]
  intro w hw hwk
  rw [beq_iff_eq] at hwk
  obtain ⟨hmem, -⟩ := userWrites_mem Hsub hw
  obtain ⟨t', ht', htu'⟩ := mem_userIndices.1 hmem
  rw [hwk, hk] at ht'
  cases ht'
  exact hvu (htu' ▸ hku ▸ rfl)

lemma filter_theWrites_nil {sample : List ℕ → List ℕ} {df : List Txn}
    {j : ℕ} {t : Txn} (Hsub : ∀ l, sample l ⊆ l) (hj : df.get? j = some t)
    (h : t.user_id ∉ trackedUsers df ∨ (userIndices df t.user_id).length ≤ 10) :
    (theWrites sample df).filter (fun w => w.1 == j) = [] := by
  rw [List.filter_eq_nil_iff]
  intro w hw hwj
  rw [beq_iff_eq] at hwj
  obtain ⟨v, hv, hwv⟩ := List.mem_flatMap.1 hw
  obtain ⟨hmem, h10⟩ := userWrites_mem Hsub hwv
  obtain ⟨t', ht', htu'⟩ := mem_userIndices.1 hmem
  rw [hwj, hj] at ht'
  cases ht'
  rcases h with hnt | hle
  · exact hnt (htu' ▸ hv)
  · rw [htu'] at hle
    omega

lemma getLast?_of_all_eq {α : Type} {l : List α} {a : α} (hne : l ≠ [])
    (hall : ∀ x ∈ l, x = a) : l.getLast? = some a := by
  rw [List.getLast?_eq_getLast l hne]
  exact congrArg some (hall _ (List.getLast_mem hne))

lemma filter_velocityWrites (sample : List ℕ → List ℕ) (df : List Txn)
    (u k : ℕ) :
    (velocityWrites sample df u).filter (fun w => w.1 == k) =
      ((sample (userIndices df u)).filter (fun x => x == k)).map
        (fun x => (x, FraudType.velocity_attack)) := by
  unfold velocityWrites
  rw [List.filter_map]
  rfl

lemma filter_micropayWrites (df : List Txn) (u k : ℕ) :
    (micropayWrites df u).filter (fun w => w.1 == k) =
      (((List.range' 1 ((userIndices df u).length - 2)).filter
          (fun i => micropayCondB df ((userIndices df u).getD i 0)
            ((userIndices df u).getD (i + 1) 0))).filter
        (fun i => (userIndices df u).getD (i + 1) 0 == k)).map
        (fun i => ((userIndices df u).getD (i + 1) 0, FraudType.micropay_scam)) := by
  simp only [micropayWrites]
  rw [List.filter_map]
  rfl

lemma lastWrite_userWrites (sample : List ℕ → List ℕ) (df : List Txn)
    (u k : ℕ) (h10 : 10 < (userIndices df u).length) :
    lastWrite (userWrites sample df u) k =
      if (micropayWrites df u).filter (fun w => w.1 == k) ≠ [] then
        some FraudType.micropay_scam
      else if (velocityWrites sample df u).filter (fun w => w.1 == k) ≠ [] then
        some FraudType.velocity_attack
      else none := by
  have h2 : 2 < (userIndices df u).length := by omega
  unfold lastWrite
  rw [show userWrites sample df u =
      velocityWrites sample df u ++ micropayWrites df u from by
    simp only [userWrites]; rw [if_pos h10, if_pos h2]]
  rw [List.filter_append, List.getLast?_append]
  by_cases hmp : (micropayWrites df u).filter (fun w => w.1 == k) = []
  · rw [hmp, if_neg (fun h => h rfl)]
    simp only [List.getLast?_nil, Option.none_or]
    by_cases hv : (velocityWrites sample df u).filter (fun w => w.1 == k) = []
    · rw [hv, if_neg (fun h => h rfl)]
      rfl
    · rw [if_pos hv]
      have hall : ∀ x ∈ (velocityWrites sample df u).filter (fun w => w.1 == k),
          x = (k, FraudType.velocity_attack) := by
        intro x hx
        obtain ⟨hmem, hxk⟩ := List.mem_filter.1 hx
        rw [beq_iff_eq] at hxk
        simp only [velocityWrites] at hmem
        obtain ⟨y, -, hy⟩ := List.mem_map.1 hmem
        rw [← hy] at hxk ⊢
        simpa using hxk
      rw [getLast?_of_all_eq hv hall]
      rfl
  · rw [if_pos hmp]
    have hall : ∀ x ∈ (micropayWrites df u).filter (fun w => w.1 == k),
        x = (k, FraudType.micropay_scam) := by
      intro x hx
      obtain ⟨hmem, hxk⟩ := List.mem_filter.1 hx
      rw [beq_iff_eq] at hxk
      exact Prod.ext hxk (micropayWrites_mem hmem).2
    rw [getLast?_of_all_eq hmp hall]
    rfl

/-- Final state of a row of a qualified tracked user: micropay label if a
    micropay write targets the row, else a velocity label if a velocity
    write does, else untouched. -/
lemma addSeq_get?_qualified (sample : List ℕ → List ℕ) (df : List Txn)
    {u k : ℕ} {t0 : Txn} (Hsub : ∀ l, sample l ⊆ l)
    (hu : u ∈ trackedUsers df) (h10 : 10 < (userIndices df u).length)
    (hk : df.get? k = some t0) (hku : t0.user_id = u) :
    (add_sequential_patterns sample df).get? k =
      if (micropayWrites df u).filter (fun w => w.1 == k) ≠ [] then
        some (setLabel FraudType.micropay_scam t0)
      else if (velocityWrites sample df u).filter (fun w => w.1 == k) ≠ [] then
        some (setLabel FraudType.velocity_attack t0)
      else some t0 := by
  rw [addSeq_eq, applyWrites_get?]
  have hlw : lastWrite (theWrites sample df) k =
      lastWrite (userWrites sample df u) k := by
    unfold lastWrite
    rw [filter_theWrites_eq Hsub hk hku hu]
  have hk' : df[k]? = some t0 := by rw [← List.get?_eq_getElem?]; exact hk
  rw [hlw, lastWrite_userWrites sample df u k h10]
  split_ifs <;> simp [appliedAt, hk']

/-- Rows of users outside the tracked pool, or of tracked users with at
    most 10 transactions, are untouched. -/
lemma addSeq_get?_unqualified (sample : List ℕ → List ℕ) (df : List Txn)
    {j : ℕ} {t : Txn} (Hsub : ∀ l, sample l ⊆ l) (hj : df.get? j = some t)
    (h : t.user_id ∉ trackedUsers df ∨ (userIndices df t.user_id).length ≤ 10) :
    (add_sequential_patterns sample df).get? j = some t := by
  rw [addSeq_eq, applyWrites_get?]
  have hlw : lastWrite (theWrites sample df) j = none := by
    unfold lastWrite
    rw [filter_theWrites_nil Hsub hj h]
    rfl
  rw [hlw, appliedAt_none, hj]

/-- A plain legitimate record with the given identifier, user, amount and
    timestamp, for concrete instances. -/
def mkT (tid u : ℕ) (amt ts : ℚ) : Txn :=
  { transaction_id := tid, user_id := u, timestamp := ts, amount := amt,
    recipient_id := 1, transaction_type := 0, device_id := 0, location := 0,
    is_fraud := false, fraud_type := FraudType.legitimate }

/-- Eleven transactions of one user whose first two rows form a qualifying
    micropay pair (amounts 5 then 15000, 120 seconds apart). -/
def df11 : List Txn :=
  (List.range 11).map (fun j =>
    mkT j 1 (if j = 0 then 5 else if j = 1 then 15000 else 50)
      (if j = 0 then 0 else if j = 1 then 120 else 200))

/-- Eleven transactions of one user whose rows 1 and 2 form a qualifying
    micropay pair. -/
def df12 : List Txn :=
  (List.range 11).map (fun j =>
    mkT j 1 (if j = 1 then 5 else if j = 2 then 15000 else 50)
      (if j = 2 then 120 else 0))

/-- Eleven transactions of one user whose rows 1 and 2 have qualifying
    amounts with the second row 500000 seconds EARLIER than the first. -/
def df13 : List Txn :=
  (List.range 11).map (fun j =>
    mkT j 1 (if j = 1 then 5 else if j = 2 then 15000 else 50)
      (if j = 1 then 500000 else 0))

/-- Eleven transactions of one user whose rows 0 and 1 have qualifying
    amounts with the second row 500000 seconds earlier than the first. -/
def df14 : List Txn :=
  (List.range 11).map (fun j =>
    mkT j 1 (if j = 0 then 5 else if j = 1 then 15000 else 50)
      (if j = 0 then 500000 else 0))

/-- One hundred distinct single-transaction users followed by eleven
    transactions of a 101st user. -/
def dfC9 : List Txn :=
  (List.range 100).map (fun j => mkT j (j + 1) 50 0) ++
    (List.range 11).map (fun j => mkT (100 + j) 101 50 0)

/-- The all-zero draw streams: one fixed seed's streams. -/
def R0 : RandStream :=
  ⟨fun _ => 0, fun _ => 0, fun _ => 0, fun _ => 0, fun _ => 0, fun _ => 0,
   fun _ => 0, fun _ => 0, fun _ => 0, fun _ => 0, fun _ => 0, fun _ => 0⟩

/-- A record with its run-volatile fields (timestamp, device_id) erased. -/
def stripVolatile (t : Txn) : Txn :=
  { t with timestamp := 0, device_id := 0 }

/-- Relation between the records of two runs of the generator whose wall
    clocks differ by `c`: every field agrees except that the timestamp is
    shifted by `c` and the device number is unconstrained. -/
def ShiftRel (c : ℚ) (t t' : Txn) : Prop :=
  t'.transaction_id = t.transaction_id ∧ t'.user_id = t.user_id ∧
  t'.timestamp = t.timestamp + c ∧ t'.amount = t.amount ∧
  t'.recipient_id = t.recipient_id ∧
  t'.transaction_type = t.transaction_type ∧
  t'.location = t.location ∧ t'.is_fraud = t.is_fraud ∧
  t'.fraud_type = t.fraud_type

lemma velocity_filter_ne_nil {sample : List ℕ → List ℕ} {df : List Txn}
    {u k : ℕ} (hk : k ∈ sample (userIndices df u)) :
    (velocityWrites sample df u).filter (fun w => w.1 == k) ≠ [] := by
  rw [filter_velocityWrites]
  intro h
  rw [List.map_eq_nil_iff] at h
  have hmem : k ∈ (sample (userIndices df u)).filter (fun x => x == k) :=
    List.mem_filter.2 ⟨hk, by simp⟩
  rw [h] at hmem
  cases hmem

lemma micropay_write_at {df : List Txn} {u i : ℕ} (hi1 : 1 ≤ i)
    (hi2 : i + 2 ≤ (userIndices df u).length)
    (hc : micropayCondB df ((userIndices df u).getD i 0)
      ((userIndices df u).getD (i + 1) 0) = true) :
    (micropayWrites df u).filter
      (fun w => w.1 == (userIndices df u).getD (i + 1) 0) ≠ [] := by
  have hmem : ((userIndices df u).getD (i + 1) 0, FraudType.micropay_scam) ∈
      micropayWrites df u := by
    simp only [micropayWrites]
    exact List.mem_map.2
      ⟨i, List.mem_filter.2 ⟨List.mem_range'_1.2 ⟨hi1, by omega⟩, hc⟩, rfl⟩
  intro h
  have hmem2 : ((userIndices df u).getD (i + 1) 0, FraudType.micropay_scam) ∈
      (micropayWrites df u).filter
        (fun w => w.1 == (userIndices df u).getD (i + 1) 0) :=
    List.mem_filter.2 ⟨hmem, by simp⟩
  rw [h] at hmem2
  cases hmem2

lemma filter_fst_eq_nil_iff {ws : List (ℕ × FraudType)} {k : ℕ} :
    ws.filter (fun w => w.1 == k) = [] ↔ k ∉ ws.map Prod.fst := by
  rw [List.filter_eq_nil_iff]
  constructor
  · intro h hk
    obtain ⟨a, ha, hak⟩ := List.mem_map.1 hk
    exact h a ha (by simp [hak])
  · intro h a ha hbeq
    exact h (List.mem_map.2 ⟨a, ha, beq_iff_eq.1 hbeq⟩)

lemma mem_of_getLast? {α : Type} {l : List α} {a : α}
    (h : l.getLast? = some a) : a ∈ l := by
  cases l with
  | nil => cases h
  | cons x xs =>
    rw [List.getLast?_eq_getLast _ (by simp)] at h
    cases h
    exact List.getLast_mem _

lemma lastWrite_mem {ws : List (ℕ × FraudType)} {k : ℕ} {v : FraudType}
    (h : lastWrite ws k = some v) : ∃ w ∈ ws, w.2 = v := by
  unfold lastWrite at h
  cases hl : (ws.filter (fun w => w.1 == k)).getLast? with
  | none => rw [hl] at h; cases h
  | some w =>
    rw [hl] at h
    cases h
    exact ⟨w, (List.mem_filter.1 (mem_of_getLast? hl)).1, rfl⟩

lemma theWrites_snd {sample : List ℕ → List ℕ} {df : List Txn}
    {w : ℕ × FraudType} (hw : w ∈ theWrites sample df) :
    w.2 = FraudType.velocity_attack ∨ w.2 = FraudType.micropay_scam := by
  obtain ⟨u, -, hwu⟩ := List.mem_flatMap.1 hw
  exact userWrites_snd hwu

lemma genRecord_transaction_id (R : RandStream) (rate now : ℚ)
    (pyHash : ℕ → ℤ) (i : ℕ) :
    (genRecord R rate now pyHash i).transaction_id = i := rfl

lemma genRecord_is_fraud (R : RandStream) (rate now : ℚ) (pyHash : ℕ → ℤ)
    (i : ℕ) :
    (genRecord R rate now pyHash i).is_fraud = decide (R.fDraw i < rate) := rfl

lemma genRecord_fraud_type (R : RandStream) (rate now : ℚ) (pyHash : ℕ → ℤ)
    (i : ℕ) :
    (genRecord R rate now pyHash i).fraud_type =
      if decide (R.fDraw i < rate) = true then archetypeOf (R.archDraw i)
      else FraudType.legitimate := rfl

lemma genRecord_amount (R : RandStream) (rate now : ℚ) (pyHash : ℕ → ℤ)
    (i : ℕ) :
    (genRecord R rate now pyHash i).amount =
      round2
        (if decide (R.fDraw i < rate) = true then
          fraudAmount R i
            (if decide (R.fDraw i < rate) = true then
              archetypeOf (R.archDraw i)
            else FraudType.legitimate)
            (1000 + R.expDraw i)
        else
          min (max 10 ((1000 + R.expDraw i) +
            (1000 + R.expDraw i) / 3 * R.normDraw i)) 100000) := rfl

lemma archetypeOf_ne_legitimate (k : ℕ) :
    archetypeOf k ≠ FraudType.legitimate := by
  have h : k % 4 = 0 ∨ k % 4 = 1 ∨ k % 4 = 2 ∨ k % 4 = 3 := by omega
  rcases h with h | h | h | h <;> simp [archetypeOf, h]

lemma roundHalfEven_ge_floor (q : ℚ) : ⌊q⌋ ≤ roundHalfEven q := by
  unfold roundHalfEven
  split_ifs <;> omega

lemma roundHalfEven_le_floor_add_one (q : ℚ) : roundHalfEven q ≤ ⌊q⌋ + 1 := by
  unfold roundHalfEven
  split_ifs <;> omega

lemma round2_pos {q : ℚ} (hq : 1 ≤ q) : 0 < round2 q := by
  unfold round2
  have h1 : (100 : ℤ) ≤ ⌊q * 100⌋ := by
    apply Int.le_floor.2
    push_cast
    linarith
  have h2 : (100 : ℤ) ≤ roundHalfEven (q * 100) :=
    le_trans h1 (roundHalfEven_ge_floor (q * 100))
  have h3 : (0 : ℚ) < (roundHalfEven (q * 100) : ℚ) := by
    exact_mod_cast lt_of_lt_of_le (show (0 : ℤ) < 100 by norm_num) h2
  exact div_pos h3 (by norm_num)

lemma fraudAmount_ge_one (R : RandStream) (i : ℕ) (ft : FraudType)
    {userAvg : ℚ} (hua : 1000 ≤ userAvg) (hu : 0 ≤ R.uniDraw i) :
    1 ≤ fraudAmount R i ft userAvg := by
  unfold fraudAmount
  split_ifs
  · have h : R.mpDraw i % 4 = 0 ∨ R.mpDraw i % 4 = 1 ∨ R.mpDraw i % 4 = 2 ∨
        R.mpDraw i % 4 = 3 := by omega
    rcases h with h | h | h | h <;> rw [h] <;> norm_num
  · linarith
  · nlinarith
  · linarith

lemma roundHalfEven_zero : roundHalfEven 0 = 0 := by
  unfold roundHalfEven
  norm_num

lemma pandasSampleSize_le (n : ℕ) : pandasSampleSize n ≤ n := by
  match n with
  | 0 =>
    unfold pandasSampleSize
    rw [Int.toNat_le, show ((0 : ℕ) : ℚ) / 10 = 0 from by norm_num,
      roundHalfEven_zero]
    simp
  | 1 =>
    unfold pandasSampleSize
    rw [Int.toNat_le]
    have hf : ⌊((1 : ℕ) : ℚ) / 10⌋ = 0 := by
      rw [show ((1 : ℕ) : ℚ) = 1 from by norm_num]
      exact Int.floor_eq_zero_iff.2 ⟨by norm_num, by norm_num⟩
    unfold roundHalfEven
    rw [hf]
    norm_num
  | (m + 2) =>
    unfold pandasSampleSize
    rw [Int.toNat_le]
    have h1 := roundHalfEven_le_floor_add_one (((m + 2 : ℕ) : ℚ) / 10)
    have h2 : (⌊((m + 2 : ℕ) : ℚ) / 10⌋ : ℚ) ≤ ((m + 2 : ℕ) : ℚ) / 10 :=
      Int.floor_le _
    have h3 : ((m + 2 : ℕ) : ℚ) / 10 ≤ ((m + 2 : ℕ) : ℚ) - 1 := by
      have hm : (2 : ℚ) ≤ ((m + 2 : ℕ) : ℚ) := by
        push_cast
        linarith [show (0 : ℚ) ≤ ((m : ℕ) : ℚ) from Nat.cast_nonneg m]
      linarith
    have h4 : (⌊((m + 2 : ℕ) : ℚ) / 10⌋ : ℚ) ≤ ((m + 2 : ℕ) : ℚ) - 1 :=
      h2.trans h3
    have h5 : ⌊((m + 2 : ℕ) : ℚ) / 10⌋ ≤ ((m + 2 : ℕ) : ℤ) - 1 := by
      exact_mod_cast h4
    omega

lemma sampleW_sub : ∀ l, sampleW l ⊆ l :=
  fun l => List.take_subset _ _

lemma sampleW_size : ∀ l : List ℕ, (sampleW l).length = pandasSampleSize l.length := by
  intro l
  rw [sampleW, List.length_take]
  exact min_eq_left (pandasSampleSize_le l.length)

lemma pandasSampleSize_eleven : pandasSampleSize 11 = 1 := by
  unfold pandasSampleSize
  have hf : ⌊((11 : ℕ) : ℚ) / 10⌋ = 1 := by
    rw [show ((11 : ℕ) : ℚ) = 11 from by norm_num, Int.floor_eq_iff]
    constructor <;> norm_num
  unfold roundHalfEven
  rw [hf]
  norm_num

lemma sampleW_eleven_range : sampleW (List.range 11) = [0] := by
  show List.take (pandasSampleSize (List.range 11).length) (List.range 11) = [0]
  rw [List.length_range, pandasSampleSize_eleven]
  decide

lemma theWrites_eq_nil {sample : List ℕ → List ℕ} {df : List Txn}
    (h : ∀ u ∈ trackedUsers df, (userIndices df u).length ≤ 10) :
    theWrites sample df = [] := by
  unfold theWrites
  rw [List.flatMap_eq_nil_iff]
  intro u hu
  simp only [userWrites]
  rw [if_neg (Nat.not_lt.2 (h u hu))]

lemma addSeq_id_of_no_qualified (sample : List ℕ → List ℕ) (df : List Txn)
    (h : ∀ u ∈ trackedUsers df, (userIndices df u).length ≤ 10) :
    add_sequential_patterns sample df = df := by
  rw [addSeq_eq, theWrites_eq_nil h]
  rfl

lemma gen_label_inv (R : RandStream) (rate now : ℚ) (pyHash : ℕ → ℤ) (n : ℕ) :
    ∀ t ∈ generate_synthetic_transactions R rate now pyHash n,
      (t.fraud_type = FraudType.legitimate ↔ t.is_fraud = false) := by
  intro t ht
  obtain ⟨i, -, rfl⟩ := List.mem_map.1 ht
  rw [genRecord_fraud_type, genRecord_is_fraud]
  by_cases hf : R.fDraw i < rate <;>
    simp [hf, archetypeOf_ne_legitimate (R.archDraw i)]

lemma addSeq_label_inv (sample : List ℕ → List ℕ) (df : List Txn)
    (h : ∀ t ∈ df, (t.fraud_type = FraudType.legitimate ↔ t.is_fraud = false)) :
    ∀ t ∈ add_sequential_patterns sample df,
      (t.fraud_type = FraudType.legitimate ↔ t.is_fraud = false) := by
  intro t ht
  obtain ⟨j, hj⟩ := List.get?_of_mem ht
  rw [addSeq_eq, applyWrites_get?] at hj
  cases hv : lastWrite (theWrites sample df) j with
  | none =>
    rw [hv, appliedAt_none] at hj
    exact h t (List.get?_mem hj)
  | some v =>
    rw [hv, appliedAt_some] at hj
    cases hd : df.get? j with
    | none => rw [hd] at hj; cases hj
    | some t0 =>
      rw [hd] at hj
      cases hj
      obtain ⟨w, hwmem, hwv⟩ := lastWrite_mem hv
      have hval := theWrites_snd hwmem
      rw [hwv] at hval
      rcases hval with h1 | h1 <;> rw [h1] <;> simp [setLabel]

lemma shiftRel_setLabel {c : ℚ} {t t' : Txn} (h : ShiftRel c t t')
    (v : FraudType) : ShiftRel c (setLabel v t) (setLabel v t') := by
  obtain ⟨h1, h2, h3, h4, h5, h6, h7, h8, h9⟩ := h
  exact ⟨h1, h2, h3, h4, h5, h6, h7, rfl, rfl⟩

lemma forall2_relabel {c : ℚ} {d1 d2 : List Txn}
    (h : List.Forall₂ (ShiftRel c) d1 d2) (k : ℕ) (v : FraudType) :
    List.Forall₂ (ShiftRel c) (relabel d1 k v) (relabel d2 k v) := by
  induction h generalizing k with
  | nil => exact List.Forall₂.nil
  | cons ht hl ih =>
    cases k with
    | zero => exact List.Forall₂.cons (shiftRel_setLabel ht v) hl
    | succ k => exact List.Forall₂.cons ht (ih k)

lemma forall2_applyWrites {c : ℚ} (ws : List (ℕ × FraudType))
    {d1 d2 : List Txn} (h : List.Forall₂ (ShiftRel c) d1 d2) :
    List.Forall₂ (ShiftRel c) (applyWrites ws d1) (applyWrites ws d2) := by
  induction ws generalizing d1 d2 with
  | nil => exact h
  | cons w ws ih => exact ih (forall2_relabel h w.1 w.2)

lemma forall2_get? {c : ℚ} {d1 d2 : List Txn}
    (h : List.Forall₂ (ShiftRel c) d1 d2) (j : ℕ) :
    (d1.get? j = none ∧ d2.get? j = none) ∨
      ∃ a b, d1.get? j = some a ∧ d2.get? j = some b ∧ ShiftRel c a b := by
  induction h generalizing j with
  | nil => exact Or.inl ⟨rfl, rfl⟩
  | cons ht hl ih =>
    cases j with
    | zero => exact Or.inr ⟨_, _, rfl, rfl, ht⟩
    | succ j => exact ih j

lemma forall2_map_user_id {c : ℚ} {d1 d2 : List Txn}
    (h : List.Forall₂ (ShiftRel c) d1 d2) :
    d1.map Txn.user_id = d2.map Txn.user_id := by
  induction h with
  | nil => rfl
  | cons ht hl ih =>
    rw [List.map_cons, List.map_cons, ih, ht.2.1]

lemma shift_micropayCondB {c : ℚ} {d1 d2 : List Txn}
    (h : List.Forall₂ (ShiftRel c) d1 d2) (k1 k2 : ℕ) :
    micropayCondB d1 k1 k2 = micropayCondB d2 k1 k2 := by
  unfold micropayCondB
  rcases forall2_get? h k1 with ⟨e1, e2⟩ | ⟨a1, b1, e1, e2, hr1⟩ <;>
    rcases forall2_get? h k2 with ⟨f1, f2⟩ | ⟨a2, b2, f1, f2, hr2⟩ <;>
      rw [e1, e2, f1, f2]
  obtain ⟨-, -, ht1, ha1, -⟩ := hr1
  obtain ⟨-, -, ht2, ha2, -⟩ := hr2
  dsimp only
  rw [ha1, ha2, ht1, ht2]
  congr 1
  rw [decide_eq_decide]
  constructor <;> intro hle <;> linarith

lemma userIndices_eq_of_map {d1 d2 : List Txn}
    (hmap : d1.map Txn.user_id = d2.map Txn.user_id) (u : ℕ) :
    userIndices d1 u = userIndices d2 u := by
  unfold userIndices
  rw [hmap]

lemma trackedUsers_eq_of_map {d1 d2 : List Txn}
    (hmap : d1.map Txn.user_id = d2.map Txn.user_id) :
    trackedUsers d1 = trackedUsers d2 := by
  unfold trackedUsers
  rw [hmap]

lemma theWrites_eq_of (sample : List ℕ → List ℕ) {d1 d2 : List Txn}
    (hmap : d1.map Txn.user_id = d2.map Txn.user_id)
    (hcond : ∀ k1 k2, micropayCondB d1 k1 k2 = micropayCondB d2 k1 k2) :
    theWrites sample d1 = theWrites sample d2 := by
  unfold theWrites
  rw [trackedUsers_eq_of_map hmap]
  apply flatMap_congr
  intro u _
  have hvel : velocityWrites sample d1 u = velocityWrites sample d2 u := by
    unfold velocityWrites
    rw [userIndices_eq_of_map hmap]
  have hmp : micropayWrites d1 u = micropayWrites d2 u := by
    simp only [micropayWrites]
    rw [userIndices_eq_of_map hmap]
    congr 1
    apply List.filter_congr
    intro i _
    rw [hcond]
  simp only [userWrites]
  rw [userIndices_eq_of_map hmap, hvel, hmp]

lemma shiftRel_strip {c : ℚ} {t t' : Txn} (h : ShiftRel c t t') :
    stripVolatile t = stripVolatile t' := by
  cases t
  cases t'
  obtain ⟨h1, h2, h3, h4, h5, h6, h7, h8, h9⟩ := h
  simp_all [stripVolatile]

lemma forall2_map_strip {c : ℚ} {d1 d2 : List Txn}
    (h : List.Forall₂ (ShiftRel c) d1 d2) :
    d1.map stripVolatile = d2.map stripVolatile := by
  induction h with
  | nil => rfl
  | cons ht hl ih => rw [List.map_cons, List.map_cons, ih, shiftRel_strip ht]

lemma forall2_map_of_forall {α β γ : Type} (r : β → γ → Prop) (f : α → β)
    (g : α → γ) (l : List α) (h : ∀ a ∈ l, r (f a) (g a)) :
    List.Forall₂ r (l.map f) (l.map g) := by
  induction l with
  | nil => exact List.Forall₂.nil
  | cons a l ih =>
    exact List.Forall₂.cons (h a (List.mem_cons_self a l))
      (ih (fun b hb => h b (List.mem_cons_of_mem a hb)))

lemma genRecord_shift (R : RandStream) (rate now1 now2 : ℚ)
    (h1 h2 : ℕ → ℤ) (i : ℕ) :
    ShiftRel (now2 - now1) (genRecord R rate now1 h1 i)
      (genRecord R rate now2 h2 i) := by
  refine ⟨rfl, rfl, ?_, rfl, rfl, rfl, rfl, rfl, rfl⟩
  show (now2 - 7776000) + 7776000 * R.tDraw i =
    ((now1 - 7776000) + 7776000 * R.tDraw i) + (now2 - now1)
  ring

lemma gen_shift (R : RandStream) (rate now1 now2 : ℚ) (h1 h2 : ℕ → ℤ)
    (n : ℕ) :
    List.Forall₂ (ShiftRel (now2 - now1))
      (generate_synthetic_transactions R rate now1 h1 n)
      (generate_synthetic_transactions R rate now2 h2 n) :=
  forall2_map_of_forall _ _ _ _ (fun i _ => genRecord_shift R rate now1 now2 h1 h2 i)

lemma genRecord_timestamp (R : RandStream) (rate now : ℚ) (pyHash : ℕ → ℤ)
    (i : ℕ) :
    (genRecord R rate now pyHash i).timestamp =
      (now - 7776000) + 7776000 * R.tDraw i := rfl

lemma genRecord_device_id (R : RandStream) (rate now : ℚ) (pyHash : ℕ → ℤ)
    (i : ℕ) :
    (genRecord R rate now pyHash i).device_id =
      pyHash (R.userDraw i % 1000 + 1) % 100 := rfl

lemma micropay_pair_core (df : List Txn) (sample : List ℕ → List ℕ)
    (Hsub : ∀ l, sample l ⊆ l) {u i : ℕ} (hu : u ∈ trackedUsers df)
    (h10 : 10 < (userIndices df u).length) (hi1 : 1 ≤ i)
    (hi2 : i + 2 ≤ (userIndices df u).length) {t1 t2 : Txn}
    (h1 : df.get? ((userIndices df u).getD i 0) = some t1)
    (h2 : df.get? ((userIndices df u).getD (i + 1) 0) = some t2)
    (ha1 : t1.amount ≤ 10) (ha2 : 10000 < t2.amount)
    (ht : t2.timestamp - t1.timestamp ≤ 300) :
    ∃ t, (add_sequential_patterns sample df).get?
        ((userIndices df u).getD (i + 1) 0) = some t ∧
      t.is_fraud = true ∧ t.fraud_type = FraudType.micropay_scam := by
  have hkmem : (userIndices df u).getD (i + 1) 0 ∈ userIndices df u :=
    getD_mem (by omega) 0
  obtain ⟨t0, ht0, htu⟩ := mem_userIndices.1 hkmem
  have hc : micropayCondB df ((userIndices df u).getD i 0)
      ((userIndices df u).getD (i + 1) 0) = true := by
    unfold micropayCondB
    rw [h1, h2]
    dsimp only
    simp [ha1, ha2, ht]
  have hne := micropay_write_at hi1 hi2 hc
  have hq := addSeq_get?_qualified sample df Hsub hu h10 ht0 htu
  rw [if_pos hne] at hq
  exact ⟨setLabel FraudType.micropay_scam t0, hq, rfl, rfl⟩

/-- C4: for every requested count `n` the sampler produces exactly `n`
    records, and the transaction identifiers are exactly `0, 1, ..., n-1`
    in generation order, hence sequential, strictly monotone and
    pairwise distinct. -/
theorem generator_count_and_ids (R : RandStream) (rate now : ℚ)
    (pyHash : ℕ → ℤ) (n : ℕ) :
    (generate_synthetic_transactions R rate now pyHash n).length = n ∧
    (generate_synthetic_transactions R rate now pyHash n).map
      Txn.transaction_id = List.range n ∧
    ((generate_synthetic_transactions R rate now pyHash n).map
      Txn.transaction_id).Nodup := by
  have hmap : (generate_synthetic_transactions R rate now pyHash n).map
      Txn.transaction_id = List.range n := by
    unfold generate_synthetic_transactions
    rw [List.map_map, show Txn.transaction_id ∘ genRecord R rate now pyHash = id
      from funext fun i => rfl, List.map_id]
  refine ⟨?_, hmap, ?_⟩
  · unfold generate_synthetic_transactions
    rw [List.length_map, List.length_range]
  · rw [hmap]
    exact List.nodup_range n

/-- C5: at both stages — after generation and after injection applied to
    the generated table — a record's `fraud_type` is `legitimate` exactly
    when its `is_fraud` flag is clear: the sampler sets the pair
    consistently, and every injector relabel sets `is_fraud` together with
    a concrete archetype (`velocity_attack` or `micropay_scam`) in the
    same step. -/
theorem legitimate_iff_not_fraud (R : RandStream) (rate now : ℚ)
    (pyHash : ℕ → ℤ) (n : ℕ) (sample : List ℕ → List ℕ) :
    (∀ t ∈ generate_synthetic_transactions R rate now pyHash n,
      (t.fraud_type = FraudType.legitimate ↔ t.is_fraud = false)) ∧
    (∀ t ∈ add_sequential_patterns sample
        (generate_synthetic_transactions R rate now pyHash n),
      (t.fraud_type = FraudType.legitimate ↔ t.is_fraud = false)) :=
  ⟨gen_label_inv R rate now pyHash n,
   addSeq_label_inv sample _ (gen_label_inv R rate now pyHash n)⟩

/-- C6: every generated record has a strictly positive amount, for every
    fraud status and archetype, given the library guarantees that the
    uniform unit draws and the exponential draws are nonnegative:
    legitimate amounts are clamped into [10, 100000], each archetype
    formula yields at least 1, and rounding to two decimals preserves
    positivity. -/
theorem amount_positive (R : RandStream) (rate now : ℚ) (pyHash : ℕ → ℤ)
    (n : ℕ) (Hu : ∀ i, 0 ≤ R.uniDraw i) (He : ∀ i, 0 ≤ R.expDraw i) :
    ∀ t ∈ generate_synthetic_transactions R rate now pyHash n,
      0 < t.amount := by
  intro t ht
  obtain ⟨i, -, rfl⟩ := List.mem_map.1 ht
  rw [genRecord_amount]
  apply round2_pos
  by_cases hf : R.fDraw i < rate
  · rw [if_pos (by simpa using hf)]
    exact fraudAmount_ge_one R i _ (by linarith [He i]) (Hu i)
  · rw [if_neg (by simpa using hf)]
    have h10 : (10 : ℚ) ≤ min (max 10 ((1000 + R.expDraw i) +
        (1000 + R.expDraw i) / 3 * R.normDraw i)) 100000 :=
      le_min (le_max_left _ _) (by norm_num)
    linarith

/-- C6 witness: the hypotheses hold for the all-zero streams and the first
    record of a one-record run has positive amount. -/
theorem amount_positive_witness :
    0 < ((generate_synthetic_transactions R0 0 0 (fun _ => 0) 1).getD 0
      (mkT 0 0 0 0)).amount :=
  amount_positive R0 0 0 (fun _ => 0) 1 (fun _ => le_refl 0)
    (fun _ => le_refl 0) _
    (getD_mem (by rw [show (generate_synthetic_transactions R0 0 0
      (fun _ => 0) 1).length = 1 from rfl]; omega) (mkT 0 0 0 0))

/-- C7: given pandas' sampling contract (the sample is a subset of the
    masked row positions), the injector preserves the table length, changes
    at most the `is_fraud` and `fraud_type` fields of any record (all other
    fields agree), and leaves every record of a user outside the tracked
    pool entirely unchanged. -/
theorem injector_frame (df : List Txn) (sample : List ℕ → List ℕ)
    (Hsub : ∀ l, sample l ⊆ l) :
    (add_sequential_patterns sample df).length = df.length ∧
    (∀ j t t', df.get? j = some t →
      (add_sequential_patterns sample df).get? j = some t' →
      agreeFrame t t') ∧
    (∀ j t, df.get? j = some t → t.user_id ∉ trackedUsers df →
      (add_sequential_patterns sample df).get? j = some t) := by
  refine ⟨(framePres_addSeq sample df).1, ?_, ?_⟩
  · intro j t t' ht ht'
    obtain ⟨v, hv⟩ := (framePres_addSeq sample df).2 j
    rw [ht', ht] at hv
    cases v with
    | none =>
      rw [appliedAt_none] at hv
      cases hv
      exact ⟨rfl, rfl, rfl, rfl, rfl, rfl, rfl, rfl⟩
    | some ft =>
      rw [appliedAt_some] at hv
      have hv' : t' = setLabel ft t := by simpa using hv
      rw [hv']
      exact ⟨rfl, rfl, rfl, rfl, rfl, rfl, rfl, rfl⟩
  · intro j t ht hnt
    exact addSeq_get?_unqualified sample df Hsub ht (Or.inl hnt)

/-- C7 witness: the subset hypothesis holds for the modelled pandas sampler
    and the injector preserves the length of a concrete table. -/
theorem injector_frame_witness :
    (add_sequential_patterns sampleW df11).length = df11.length :=
  (injector_frame df11 sampleW sampleW_sub).1

/-- C8: running the injector a second time on its own output changes
    nothing: the velocity sample is drawn from the unchanged per-user
    position sets and the micropay test reads only amounts and timestamps,
    which the injector never alters, so the second run repeats exactly the
    same label writes. -/
theorem injector_idempotent (sample : List ℕ → List ℕ) (df : List Txn) :
    add_sequential_patterns sample (add_sequential_patterns sample df) =
      add_sequential_patterns sample df := by
  rw [addSeq_eq sample (add_sequential_patterns sample df),
    theWrites_congr sample (framePres_addSeq sample df),
    addSeq_eq sample df, applyWrites_idem]

/-- C3: with pandas' sampling contract (subset of the user's row positions,
    of size `round(0.1 * len)`, deterministic), every sampled row of a
    tracked user with more than 10 transactions ends flagged fraudulent —
    labelled `velocity_attack`, unless the later micropay pass of the same
    run overwrites that same row with `micropay_scam` — while records of
    users outside the first 100, or with at most 10 transactions, are
    entirely unchanged. -/
theorem velocity_sample_relabels_tracked_users (df : List Txn)
    (sample : List ℕ → List ℕ) (Hsub : ∀ l, sample l ⊆ l)
    (Hsize : ∀ l, (sample l).length = pandasSampleSize l.length) :
    (∀ u ∈ trackedUsers df, 10 < (userIndices df u).length →
      ∀ k ∈ sample (userIndices df u),
        ∃ t, (add_sequential_patterns sample df).get? k = some t ∧
          t.is_fraud = true ∧
          (t.fraud_type = FraudType.velocity_attack ∨
            t.fraud_type = FraudType.micropay_scam) ∧
          (k ∉ (micropayWrites df u).map Prod.fst →
            t.fraud_type = FraudType.velocity_attack)) ∧
    (∀ j t, df.get? j = some t →
      t.user_id ∉ trackedUsers df ∨ (userIndices df t.user_id).length ≤ 10 →
      (add_sequential_patterns sample df).get? j = some t) := by
  constructor
  · intro u hu h10 k hk
    obtain ⟨t0, ht0, htu⟩ := mem_userIndices.1 (Hsub _ hk)
    have hq := addSeq_get?_qualified sample df Hsub hu h10 ht0 htu
    by_cases hmp : (micropayWrites df u).filter (fun w => w.1 == k) = []
    · rw [if_neg (fun hh => hh hmp), if_pos (velocity_filter_ne_nil hk)] at hq
      exact ⟨setLabel FraudType.velocity_attack t0, hq, rfl, Or.inl rfl,
        fun _ => rfl⟩
    · rw [if_pos hmp] at hq
      refine ⟨setLabel FraudType.micropay_scam t0, hq, rfl, Or.inr rfl, ?_⟩
      intro hnot
      exact absurd (filter_fst_eq_nil_iff.2 hnot) hmp
  · intro j t ht h
    exact addSeq_get?_unqualified sample df Hsub ht h

/-- C3 witness: on a concrete table with one tracked user of 11
    transactions, pandas' contract holds for the modelled sampler, row 0 is
    sampled, and it ends labelled `velocity_attack`. -/
theorem velocity_sample_relabels_tracked_users_witness :
    ∃ t, (add_sequential_patterns sampleW df11).get? 0 = some t ∧
      t.is_fraud = true ∧
      (t.fraud_type = FraudType.velocity_attack ∨
        t.fraud_type = FraudType.micropay_scam) ∧
      (0 ∉ (micropayWrites df11 1).map Prod.fst →
        t.fraud_type = FraudType.velocity_attack) :=
  (velocity_sample_relabels_tracked_users df11 sampleW sampleW_sub
      sampleW_size).1 1 (by decide) (by decide) 0
    (by rw [show userIndices df11 1 = List.range 11 from by decide,
      sampleW_eleven_range]; decide)

/-- C9 (corrected): for a user among the first 100 tracked users with
    exactly 11 transactions, the 10% sample rounds to one row, and after
    injection at least one of that user's transactions is labelled
    `velocity_attack`, provided no micropay write of the same run targets
    that user's rows. -/
theorem tracked_eleven_txn_velocity (df : List Txn)
    (sample : List ℕ → List ℕ) (Hsub : ∀ l, sample l ⊆ l)
    (Hsize : ∀ l, (sample l).length = pandasSampleSize l.length) (u : ℕ)
    (hu : u ∈ trackedUsers df) (hlen : (userIndices df u).length = 11)
    (hmp : micropayWrites df u = []) :
    ∃ t, t ∈ add_sequential_patterns sample df ∧ t.user_id = u ∧
      t.is_fraud = true ∧ t.fraud_type = FraudType.velocity_attack := by
  have h10 : 10 < (userIndices df u).length := by omega
  have hsz : (sample (userIndices df u)).length = 1 := by
    rw [Hsize, hlen, pandasSampleSize_eleven]
  obtain ⟨k, hk⟩ : ∃ k, sample (userIndices df u) = [k] := by
    cases hl : sample (userIndices df u) with
    | nil => rw [hl] at hsz; cases hsz
    | cons k rest =>
      rw [hl] at hsz
      simp only [List.length_cons, Nat.add_left_eq_self,
        List.length_eq_zero] at hsz
      exact ⟨k, by rw [hsz]⟩
  have hkmem : k ∈ sample (userIndices df u) := by
    rw [hk]
    exact List.mem_singleton.2 rfl
  obtain ⟨t0, ht0, htu⟩ := mem_userIndices.1 (Hsub _ hkmem)
  have hq := addSeq_get?_qualified sample df Hsub hu h10 ht0 htu
  have hmpf : (micropayWrites df u).filter (fun w => w.1 == k) = [] := by
    rw [hmp]
    rfl
  rw [if_neg (fun hh => hh hmpf), if_pos (velocity_filter_ne_nil hkmem)] at hq
  exact ⟨setLabel FraudType.velocity_attack t0, List.get?_mem hq, htu, rfl, rfl⟩

/-- C9 witness: on a concrete table with one tracked user of exactly 11
    transactions and no micropay pair, the hypotheses hold for the modelled
    pandas sampler and the user gets a `velocity_attack` row. -/
theorem tracked_eleven_txn_velocity_witness :
    ∃ t, t ∈ add_sequential_patterns sampleW df11 ∧ t.user_id = 1 ∧
      t.is_fraud = true ∧ t.fraud_type = FraudType.velocity_attack :=
  tracked_eleven_txn_velocity df11 sampleW sampleW_sub sampleW_size 1
    (by decide) (by decide) (by decide)

set_option maxRecDepth 100000 in
/-- C9 counterexample: the claim as stated omits the tracked-pool
    restriction.  In a table whose first 100 distinct users each have one
    transaction, the 101st user has exactly 11 transactions but is outside
    `df['user_id'].unique()[:100]`, so after injection none of that user's
    records is labelled `velocity_attack`. -/
theorem eleven_txn_untracked_counterexample :
    (userIndices dfC9 101).length = 11 ∧
    101 ∉ trackedUsers dfC9 ∧
    (add_sequential_patterns sampleW dfC9).filter
      (fun t => t.user_id == 101 &&
        decide (t.fraud_type = FraudType.velocity_attack)) = [] := by
  refine ⟨by decide, by decide, ?_⟩
  rw [addSeq_id_of_no_qualified sampleW dfC9 (by decide)]
  decide

/-- C1 (corrected): the micropay scan runs over
    `range(1, len(user_indices) - 1)`, so it covers every adjacent pair of
    the tracked user's rows EXCEPT the pair starting at the user's first
    row.  For every scanned adjacent pair (positions `i`, `i+1` with
    `i ≥ 1`) whose first amount is at most 10, second amount above 10000
    and timestamps within 300 seconds, the second record ends relabelled
    `micropay_scam`. -/
theorem micropay_scanned_pair_relabels (df : List Txn)
    (sample : List ℕ → List ℕ) (Hsub : ∀ l, sample l ⊆ l) (u i : ℕ)
    (hu : u ∈ trackedUsers df) (h10 : 10 < (userIndices df u).length)
    (hi1 : 1 ≤ i) (hi2 : i + 2 ≤ (userIndices df u).length) (t1 t2 : Txn)
    (h1 : df.get? ((userIndices df u).getD i 0) = some t1)
    (h2 : df.get? ((userIndices df u).getD (i + 1) 0) = some t2)
    (ha1 : t1.amount ≤ 10) (ha2 : 10000 < t2.amount)
    (ht : t2.timestamp - t1.timestamp ≤ 300) :
    ∃ t, (add_sequential_patterns sample df).get?
        ((userIndices df u).getD (i + 1) 0) = some t ∧
      t.is_fraud = true ∧ t.fraud_type = FraudType.micropay_scam :=
  micropay_pair_core df sample Hsub hu h10 hi1 hi2 h1 h2 ha1 ha2 ht

/-- C1 witness: a qualifying pair at scanned positions 1 and 2 of a
    tracked user's rows has its second record relabelled `micropay_scam`. -/
theorem micropay_scanned_pair_relabels_witness :
    ∃ t, (add_sequential_patterns sampleW df12).get?
        ((userIndices df12 1).getD (1 + 1) 0) = some t ∧
      t.is_fraud = true ∧ t.fraud_type = FraudType.micropay_scam :=
  micropay_scanned_pair_relabels df12 sampleW sampleW_sub 1 1 (by decide)
    (by decide) (by decide) (by decide) (mkT 1 1 5 0) (mkT 2 1 15000 120)
    (by decide) (by decide) (by decide) (by decide) (by norm_num [mkT])

/-- C1 counterexample: the claim quantifies over EVERY adjacent pair, but
    the pair at positions 0 and 1 of the user's rows is skipped by
    `range(1, len - 1)`: its amounts are 5 and 15000 and its timestamps
    120 seconds apart, yet after injection the second record still carries
    its original `legitimate` label rather than `micropay_scam`. -/
theorem micropay_head_pair_counterexample :
    df11.get? 0 = some (mkT 0 1 5 0) ∧
    df11.get? 1 = some (mkT 1 1 15000 120) ∧
    (userIndices df11 1).getD 0 0 = 0 ∧
    (userIndices df11 1).getD 1 0 = 1 ∧
    1 ∈ trackedUsers df11 ∧
    10 < (userIndices df11 1).length ∧
    (mkT 0 1 5 0).amount ≤ 10 ∧
    10000 < (mkT 1 1 15000 120).amount ∧
    (mkT 1 1 15000 120).timestamp - (mkT 0 1 5 0).timestamp ≤ 300 ∧
    (add_sequential_patterns sampleW df11).get? 1 =
      some (mkT 1 1 15000 120) ∧
    (mkT 1 1 15000 120).fraud_type = FraudType.legitimate := by
  refine ⟨by decide, by decide, by decide, by decide, by decide, by decide,
    by decide, by decide, by norm_num [mkT], ?_, by decide⟩
  have hvel : velocityWrites sampleW df11 1 = [(0, FraudType.velocity_attack)] := by
    unfold velocityWrites
    rw [show userIndices df11 1 = List.range 11 from by decide,
      sampleW_eleven_range]
    rfl
  have hq := @addSeq_get?_qualified sampleW df11 1 1 (mkT 1 1 15000 120)
    sampleW_sub (by decide) (by decide) (by decide) (by decide)
  have hmpf : (micropayWrites df11 1).filter (fun w => w.1 == 1) = [] := by
    decide
  have hvf : (velocityWrites sampleW df11 1).filter (fun w => w.1 == 1) = [] := by
    rw [hvel]
    decide
  rw [if_neg (fun hh => hh hmpf), if_neg (fun hh => hh hvf)] at hq
  exact hq

/-- C10 (corrected): the micropay timestamp test is the signed comparison
    `(t2 - t1).total_seconds() <= 300`, so for every SCANNED adjacent pair
    (positions `i`, `i+1` with `i ≥ 1`) of a tracked user whose second
    timestamp is strictly earlier than the first — by any margin — the
    300-second condition is satisfied and the second record is relabelled
    `micropay_scam` whenever the amount conditions hold; the pair starting
    at the user's first row remains outside the scan. -/
theorem signed_delta_relabels (df : List Txn) (sample : List ℕ → List ℕ)
    (Hsub : ∀ l, sample l ⊆ l) (u i : ℕ) (hu : u ∈ trackedUsers df)
    (h10 : 10 < (userIndices df u).length) (hi1 : 1 ≤ i)
    (hi2 : i + 2 ≤ (userIndices df u).length) (t1 t2 : Txn)
    (h1 : df.get? ((userIndices df u).getD i 0) = some t1)
    (h2 : df.get? ((userIndices df u).getD (i + 1) 0) = some t2)
    (ha1 : t1.amount ≤ 10) (ha2 : 10000 < t2.amount)
    (ht : t2.timestamp < t1.timestamp) :
    ∃ t, (add_sequential_patterns sample df).get?
        ((userIndices df u).getD (i + 1) 0) = some t ∧
      t.is_fraud = true ∧ t.fraud_type = FraudType.micropay_scam :=
  micropay_pair_core df sample Hsub hu h10 hi1 hi2 h1 h2 ha1 ha2
    (by linarith)

/-- C10 witness: a scanned pair whose second row is 500000 seconds earlier
    than the first, with qualifying amounts, gets its second record
    relabelled `micropay_scam`. -/
theorem signed_delta_relabels_witness :
    ∃ t, (add_sequential_patterns sampleW df13).get?
        ((userIndices df13 1).getD (1 + 1) 0) = some t ∧
      t.is_fraud = true ∧ t.fraud_type = FraudType.micropay_scam :=
  signed_delta_relabels df13 sampleW sampleW_sub 1 1 (by decide) (by decide)
    (by decide) (by decide) (mkT 1 1 5 500000) (mkT 2 1 15000 0) (by decide)
    (by decide) (by decide) (by decide) (by decide)

/-- C10 counterexample: the claim as stated covers ANY adjacent index
    pair, but a pair at positions 0 and 1 — second timestamp 500000
    seconds earlier, amounts 5 and 15000 — is skipped by
    `range(1, len - 1)`, so the second record keeps its original
    `legitimate` label. -/
theorem signed_delta_head_pair_counterexample :
    df14.get? 0 = some (mkT 0 1 5 500000) ∧
    df14.get? 1 = some (mkT 1 1 15000 0) ∧
    (userIndices df14 1).getD 0 0 = 0 ∧
    (userIndices df14 1).getD 1 0 = 1 ∧
    1 ∈ trackedUsers df14 ∧
    10 < (userIndices df14 1).length ∧
    (mkT 0 1 5 500000).amount ≤ 10 ∧
    10000 < (mkT 1 1 15000 0).amount ∧
    (mkT 1 1 15000 0).timestamp < (mkT 0 1 5 500000).timestamp ∧
    (add_sequential_patterns sampleW df14).get? 1 = some (mkT 1 1 15000 0) ∧
    (mkT 1 1 15000 0).fraud_type = FraudType.legitimate := by
  refine ⟨by decide, by decide, by decide, by decide, by decide, by decide,
    by decide, by decide, by decide, ?_, by decide⟩
  have hvel : velocityWrites sampleW df14 1 = [(0, FraudType.velocity_attack)] := by
    unfold velocityWrites
    rw [show userIndices df14 1 = List.range 11 from by decide,
      sampleW_eleven_range]
    rfl
  have hq := @addSeq_get?_qualified sampleW df14 1 1 (mkT 1 1 15000 0)
    sampleW_sub (by decide) (by decide) (by decide) (by decide)
  have hmpf : (micropayWrites df14 1).filter (fun w => w.1 == 1) = [] := by
    decide
  have hvf : (velocityWrites sampleW df14 1).filter (fun w => w.1 == 1) = [] := by
    rw [hvel]
    decide
  rw [if_neg (fun hh => hh hmpf), if_neg (fun hh => hh hvf)] at hq
  exact hq

/-- C2 (corrected): with a fixed seed (fixed draw streams) and identical
    `n`, two independent runs agree on every field of every record except
    `timestamp` — which follows the wall clock `datetime.now()` read at run
    start — and `device_id` — which follows the process's string-hash
    salt; this holds both after generation and after injection, since the
    injector's decisions depend on timestamps only through differences,
    which are run-independent. -/
theorem runs_agree_up_to_timestamp_device (R : RandStream) (rate : ℚ)
    (now1 now2 : ℚ) (h1 h2 : ℕ → ℤ) (n : ℕ) (sample : List ℕ → List ℕ) :
    (generate_synthetic_transactions R rate now1 h1 n).map stripVolatile =
      (generate_synthetic_transactions R rate now2 h2 n).map stripVolatile ∧
    (add_sequential_patterns sample
        (generate_synthetic_transactions R rate now1 h1 n)).map stripVolatile =
      (add_sequential_patterns sample
        (generate_synthetic_transactions R rate now2 h2 n)).map stripVolatile := by
  have hrel := gen_shift R rate now1 now2 h1 h2 n
  refine ⟨forall2_map_strip hrel, ?_⟩
  have hmap := forall2_map_user_id hrel
  have hW := theWrites_eq_of sample hmap
    (fun k1 k2 => shift_micropayCondB hrel k1 k2)
  rw [addSeq_eq, addSeq_eq, hW]
  exact forall2_map_strip (forall2_applyWrites _ hrel)

/-- C2 counterexample: two runs with the same seed streams and the same
    `n = 1` are NOT byte-identical: started 90 days apart they differ in
    the timestamp, and run under different hash salts they differ in the
    device number; the difference survives the injector pass. -/
theorem run_output_differs_counterexample :
    generate_synthetic_transactions R0 0 0 (fun _ => 0) 1 ≠
      generate_synthetic_transactions R0 0 7776000 (fun _ => 0) 1 ∧
    generate_synthetic_transactions R0 0 0 (fun _ => 0) 1 ≠
      generate_synthetic_transactions R0 0 0 (fun _ => 1) 1 ∧
    add_sequential_patterns sampleW
        (generate_synthetic_transactions R0 0 0 (fun _ => 0) 1) ≠
      add_sequential_patterns sampleW
        (generate_synthetic_transactions R0 0 7776000 (fun _ => 0) 1) := by
  have key : ∀ (now : ℚ) (ph : ℕ → ℤ),
      (generate_synthetic_transactions R0 0 now ph 1).get? 0 =
        some (genRecord R0 0 now ph 0) := fun now ph => rfl
  have hts : ∀ (ph : ℕ → ℤ),
      generate_synthetic_transactions R0 0 0 ph 1 ≠
        generate_synthetic_transactions R0 0 7776000 ph 1 := by
    intro ph h
    have h0 := congrArg (fun l => l.get? 0) h
    simp only [key] at h0
    have hr := Option.some.inj h0
    have htseq := congrArg Txn.timestamp hr
    rw [genRecord_timestamp, genRecord_timestamp] at htseq
    rw [show R0.tDraw 0 = 0 from rfl] at htseq
    norm_num at htseq
  have hdev : generate_synthetic_transactions R0 0 0 (fun _ => 0) 1 ≠
      generate_synthetic_transactions R0 0 0 (fun _ => 1) 1 := by
    intro h
    have h0 := congrArg (fun l => l.get? 0) h
    simp only [key] at h0
    have hr := Option.some.inj h0
    have hd := congrArg Txn.device_id hr
    rw [genRecord_device_id, genRecord_device_id] at hd
    norm_num at hd
  have hid : ∀ (now : ℚ) (ph : ℕ → ℤ),
      add_sequential_patterns sampleW
          (generate_synthetic_transactions R0 0 now ph 1) =
        generate_synthetic_transactions R0 0 now ph 1 := by
    intro now ph
    apply addSeq_id_of_no_qualified
    intro u hu
    have htr : trackedUsers (generate_synthetic_transactions R0 0 now ph 1) =
        [1] := rfl
    rw [htr, List.mem_singleton] at hu
    subst hu
    have hidx : userIndices (generate_synthetic_transactions R0 0 now ph 1) 1 =
        [0] := rfl
    rw [hidx]
    simp
  exact ⟨hts (fun _ => 0), hdev, by rw [hid, hid]; exact hts (fun _ => 0)⟩
